import Mathlib

/-!
Verification of the kilo text editor core (kilo.c) against its
natural-language specification.  The C code is shallowly embedded: bytes are
`Nat`, C strings are `List Nat`, the global `struct editorConfig E` is an
explicit `editorConfig` record threaded through the operations, and the
keyboard byte stream is a `List (Option Nat)` where `none` stands for a
timed-out `read()` call.
-/

namespace Kilo

/-- KILO_TAB_STOP (kilo.c line 24). -/
def KILO_TAB_STOP : Nat := 8

/-- CTRL_KEY macro (kilo.c line 31): bitwise AND with 0x1f. -/
def CTRL_KEY (k : Nat) : Nat := k &&& 0x1f

/-- enum editorKey (kilo.c lines 35-45); values start at 1000. -/
def ARROW_UP : Nat := 1000

def ARROW_DOWN : Nat := 1001

def ARROW_RIGHT : Nat := 1002

def ARROW_LEFT : Nat := 1003

def DEL_KEY : Nat := 1004

def HOME_KEY : Nat := 1005

def END_KEY : Nat := 1006

def PAGE_UP : Nat := 1007

def PAGE_DOWN : Nat := 1008

/-- The escape byte 0x1b. -/
def ESC_BYTE : Nat := 27

/-- erow (kilo.c lines 52-61): a row of text.  `chars` is the raw line,
`render` the rendered buffer contents; the stored `size` / `rsize` fields
are the lengths of these lists (see `erow.size` / `erow.rsize`). -/
structure erow where
  chars : List Nat
  render : List Nat
deriving Repr, DecidableEq

/-- The stored `size` field: length of `chars` (set in editorAppendRow). -/
def erow.size (r : erow) : Nat := r.chars.length

/-- The stored `rsize` field: final value of `idx` in editorUpdateRow,
i.e. the length of the render buffer contents. -/
def erow.rsize (r : erow) : Nat := r.render.length

/-- The copy loop of editorUpdateRow (kilo.c lines 304-313), with `idx` the
current write index into the render buffer: the bytes written by the loop.
A tab (9) writes one space (32), then the inner while loop writes further
spaces until the index is divisible by KILO_TAB_STOP, i.e.
`(KILO_TAB_STOP - (idx+1) % KILO_TAB_STOP) % KILO_TAB_STOP` more spaces;
any other byte is copied as is. -/
def renderChars : Nat → List Nat → List Nat
  | _, [] => []
  | idx, c :: rest =>
    if c = 9 then
      let pad := (KILO_TAB_STOP - (idx + 1) % KILO_TAB_STOP) % KILO_TAB_STOP
      (32 :: List.replicate pad 32) ++ renderChars (idx + 1 + pad) rest
    else
      c :: renderChars (idx + 1) rest

/-- editorUpdateRow (kilo.c lines 289-318).  The local `int idx;` is read
without ever being initialized, so the copy loop starts at whatever value
the stack holds; `junk` models the render-buffer bytes below that start
index (they are never written), so `junk.length` is the start value of
`idx`.  `junk = []` models `idx = 0`, the evidently intended behavior.
The stored `rsize` is the final value of `idx`, i.e. `render.length`. -/
def editorUpdateRow (junk : List Nat) (chars : List Nat) : erow :=
  { chars := chars, render := junk ++ renderChars junk.length chars }

/-- The tab count loop of editorUpdateRow (kilo.c lines 291-295). -/
def tabsIn (chars : List Nat) : Nat := chars.count 9

/-- Bytes malloc'ed for the render buffer (kilo.c line 300):
`row->size + tabs * (KILO_TAB_STOP - 1) + 1`. -/
def renderAlloc (chars : List Nat) : Nat :=
  chars.length + tabsIn chars * (KILO_TAB_STOP - 1) + 1

/-- struct editorConfig (kilo.c lines 63-82); `numrows` is tracked as
`row.length` (editorAppendRow keeps them equal). -/
structure editorConfig where
  cx : Nat
  cy : Nat
  rowoff : Nat
  coloff : Nat
  screenrows : Nat
  screencols : Nat
  row : List erow
deriving Repr, DecidableEq

/-- The stored `numrows` field: maintained equal to the length of `row`. -/
def editorConfig.numrows (E : editorConfig) : Nat := E.row.length

/-- editorAppendRow (kilo.c lines 320-341): append one erow built from the
given bytes, deriving its render via editorUpdateRow. -/
def editorAppendRow (junk : List Nat) (E : editorConfig) (s : List Nat) :
    editorConfig :=
  { E with row := E.row ++ [editorUpdateRow junk s] }

/-- One getline-style split of the file bytes (kilo.c line 367): each chunk
contains everything up to and including a newline byte (10); a final chunk
without a newline is produced only when nonempty.  `acc` holds the bytes of
the current line, reversed. -/
def getlinesAux (acc : List Nat) : List Nat → List (List Nat)
  | [] => if acc = [] then [] else [acc.reverse]
  | b :: rest =>
    if b = 10 then (acc.reverse ++ [10]) :: getlinesAux [] rest
    else getlinesAux (b :: acc) rest

/-- The sequence of lines getline returns for the whole file. -/
def getlines (file : List Nat) : List (List Nat) := getlinesAux [] file

/-- The strip loop of editorOpen (kilo.c lines 369-371):
`while (linelen > 0 && (line[linelen-1] == '\n' || line[linelen-1] == '\r'))
linelen--;` computed as a function of the current `linelen`. -/
def stripLen (line : List Nat) : Nat → Nat
  | 0 => 0
  | n + 1 =>
    if line.get? n = some 10 ∨ line.get? n = some 13 then stripLen line n
    else n + 1

/-- The row bytes editorOpen passes to editorAppendRow: the line truncated
to the stripped length. -/
def stripTrailing (line : List Nat) : List Nat :=
  line.take (stripLen line line.length)

/-- editorOpen (kilo.c lines 345-376): for each line getline returns, strip
trailing newline / carriage-return bytes and append the row. -/
def editorOpen (junk : List Nat) (E : editorConfig) (file : List Nat) :
    editorConfig :=
  (getlines file).foldl (fun E line => editorAppendRow junk E (stripTrailing line)) E

/-- initEditor (kilo.c lines 634-648) with the window size supplied. -/
def initEditor (screenrows screencols : Nat) : editorConfig :=
  { cx := 0, cy := 0, rowoff := 0, coloff := 0,
    screenrows := screenrows, screencols := screencols, row := [] }

/-- editorScroll (kilo.c lines 413-432): four sequential ifs adjusting the
two offsets; each later test reads the already-updated offset.  The guard
of each subtraction makes the Nat subtraction exact. -/
def editorScroll (E : editorConfig) : editorConfig :=
  let rowoff := if E.cy < E.rowoff then E.cy else E.rowoff
  let rowoff := if rowoff + E.screenrows ≤ E.cy then E.cy - E.screenrows + 1 else rowoff
  let coloff := if E.cx < E.coloff then E.cx else E.coloff
  let coloff := if coloff + E.screencols ≤ E.cx then E.cx - E.screencols + 1 else coloff
  { E with rowoff := rowoff, coloff := coloff }

/-- `(E.cy >= E.numrows) ? NULL : &E.row[E.cy]` (kilo.c lines 536 and 577). -/
def rowObj (E : editorConfig) (i : Nat) : Option erow :=
  if E.numrows ≤ i then none else E.row.get? i

/-- `int rowlen = row ? row->size : 0` for the row at index `i`
(kilo.c line 579). -/
def rowLenAt (E : editorConfig) (i : Nat) : Nat :=
  if E.numrows ≤ i then 0 else (E.row.getD i ⟨[], []⟩).size

/-- The switch of editorMoveCursor (kilo.c lines 539-573), with `row` the
pointer computed at line 536. -/
def moveSwitch (key : Nat) (E : editorConfig) : editorConfig :=
  let row := rowObj E E.cy
  if key = ARROW_UP then
    if E.cy ≠ 0 then { E with cy := E.cy - 1 } else E
  else if key = ARROW_DOWN then
    if E.cy < E.numrows then { E with cy := E.cy + 1 } else E
  else if key = ARROW_RIGHT then
    match row with
    | none => E
    | some r =>
      if E.cx < r.size then { E with cx := E.cx + 1 }
      else if E.cx = r.size then { E with cy := E.cy + 1, cx := 0 }
      else E
  else if key = ARROW_LEFT then
    if E.cx ≠ 0 then { E with cx := E.cx - 1 }
    else if 0 < E.cy then
      { E with cy := E.cy - 1, cx := (E.row.getD (E.cy - 1) ⟨[], []⟩).size }
    else E
  else E

/-- The vertical-movement fix of editorMoveCursor (kilo.c lines 575-584):
snap `cx` to the length of the line the cursor ended up on. -/
def snapCx (E1 : editorConfig) : editorConfig :=
  let rowlen := rowLenAt E1 E1.cy
  if rowlen < E1.cx then { E1 with cx := rowlen } else E1

/-- editorMoveCursor (kilo.c lines 533-585): the switch on the arrow keys
followed by the snap of `cx` to the length of the (possibly new) line. -/
def editorMoveCursor (key : Nat) (E : editorConfig) : editorConfig :=
  snapCx (moveSwitch key E)

/-- Result of editorProcessKeypress: Ctrl-Q exits the process (quit),
everything else continues with a new state. -/
inductive KeyResult where
  | quit : KeyResult
  | cont : editorConfig → KeyResult
deriving Repr, DecidableEq

/-- editorProcessKeypress (kilo.c lines 587-630), applied to an already
decoded key. -/
def editorProcessKeypress (c : Nat) (E : editorConfig) : KeyResult :=
  if c = CTRL_KEY 113 then KeyResult.quit
  else if c = HOME_KEY then KeyResult.cont { E with cx := 0 }
  else if c = END_KEY then KeyResult.cont { E with cx := E.screencols - 1 }
  else if c = PAGE_UP ∨ c = PAGE_DOWN then
    KeyResult.cont
      ((editorMoveCursor (if c = PAGE_UP then ARROW_UP else ARROW_DOWN))^[E.screenrows] E)
  else if c = ARROW_UP ∨ c = ARROW_DOWN ∨ c = ARROW_RIGHT ∨ c = ARROW_LEFT then
    KeyResult.cont (editorMoveCursor c E)
  else KeyResult.cont E

/-- Run one keypress, keeping the current state on quit (used only to chain
scenario keys, none of which quit). -/
def applyKey (E : editorConfig) (c : Nat) : editorConfig :=
  match editorProcessKeypress c E with
  | KeyResult.quit => E
  | KeyResult.cont E2 => E2

/-- The spec's cursor invariant: `fileRow` never exceeds the row count and
`fileCol` is clamped to the raw length of the row the cursor addresses
(0 when `fileRow` equals the row count). -/
def cursorInv (E : editorConfig) : Prop :=
  E.cy ≤ E.numrows ∧ E.cx ≤ rowLenAt E E.cy

instance (E : editorConfig) : Decidable (cursorInv E) :=
  inferInstanceAs (Decidable (E.cy ≤ E.numrows ∧ E.cx ≤ rowLenAt E E.cy))

/-- The `seq[1] == '~'` digit table of editorReadKey (kilo.c lines 181-197);
an unmapped digit falls out of the switch and the function returns the bare
escape byte. -/
def escDigitKey (b : Nat) : Nat :=
  if b = 49 then HOME_KEY
  else if b = 50 then END_KEY
  else if b = 51 then DEL_KEY
  else if b = 53 then PAGE_UP
  else if b = 54 then PAGE_DOWN
  else if b = 55 then HOME_KEY
  else if b = 56 then END_KEY
  else ESC_BYTE

/-- The letter table for `ESC [ <letter>` (kilo.c lines 200-213). -/
def escLetterKey (b : Nat) : Nat :=
  if b = 65 then ARROW_UP
  else if b = 66 then ARROW_DOWN
  else if b = 67 then ARROW_RIGHT
  else if b = 68 then ARROW_LEFT
  else if b = 72 then HOME_KEY
  else if b = 70 then END_KEY
  else ESC_BYTE

/-- The table for `ESC O <letter>` (kilo.c lines 216-221). -/
def escOKey (b : Nat) : Nat :=
  if b = 72 then HOME_KEY
  else if b = 70 then END_KEY
  else ESC_BYTE

/-- The `read(&seq[2])` step of editorReadKey (kilo.c lines 180-198), taken
when `seq[1]` is the digit `s1`: on timeout return bare escape, on `~` look
the digit up, otherwise fall through to bare escape. -/
def readDigitTail (s1 : Nat) : List (Option Nat) → Nat × List (Option Nat)
  | [] => (ESC_BYTE, [])
  | none :: rest2 => (ESC_BYTE, rest2)
  | some s2 :: rest2 =>
    if s2 = 126 then (escDigitKey s1, rest2) else (ESC_BYTE, rest2)

/-- The branch of editorReadKey after both `seq[0] = s0` and `seq[1]` were
read (kilo.c lines 178-226). -/
def readSeqBody (s0 s1 : Nat) (rest1 : List (Option Nat)) :
    Nat × List (Option Nat) :=
  if s0 = 91 then
    if 48 ≤ s1 ∧ s1 ≤ 57 then readDigitTail s1 rest1
    else (escLetterKey s1, rest1)
  else if s0 = 79 then (escOKey s1, rest1)
  else (ESC_BYTE, rest1)

/-- The `read(&seq[1])` step (kilo.c line 176), `seq[0]` being `s0`. -/
def readSeq1 (s0 : Nat) : List (Option Nat) → Nat × List (Option Nat)
  | [] => (ESC_BYTE, [])
  | none :: rest1 => (ESC_BYTE, rest1)
  | some s1 :: rest1 => readSeqBody s0 s1 rest1

/-- The escape-sequence tail of editorReadKey (kilo.c lines 170-226), run
after the escape byte was read, starting with the `read(&seq[0])` step.
Each element of the stream is one `read()` outcome: `some b` a byte,
`none` a timeout; running off the end of the list is also a timeout.
Returns the decoded key and the unconsumed stream. -/
def readEscSeq : List (Option Nat) → Nat × List (Option Nat)
  | [] => (ESC_BYTE, [])
  | none :: rest => (ESC_BYTE, rest)
  | some s0 :: rest0 => readSeq1 s0 rest0

/-- editorReadKey (kilo.c lines 153-231).  The leading while loop retries
until a byte arrives, so timeouts before the first byte are skipped; an
exhausted stream means the call never returns (`none`). -/
def editorReadKey : List (Option Nat) → Option (Nat × List (Option Nat))
  | [] => none
  | none :: rest => editorReadKey rest
  | some c :: rest =>
    if c = ESC_BYTE then some (readEscSeq rest) else some (c, rest)

/-- Modelled from the claim's key table (C7): the named key produced when
the stream after the escape byte begins with one of the listed sequences,
and `none` for every other escape-initiated sequence. -/
def claimEscKey (rest : List (Option Nat)) : Option Nat :=
  if rest.take 3 = [some 91, some 49, some 126] then some HOME_KEY
  else if rest.take 3 = [some 91, some 55, some 126] then some HOME_KEY
  else if rest.take 2 = [some 91, some 72] then some HOME_KEY
  else if rest.take 2 = [some 79, some 72] then some HOME_KEY
  else if rest.take 3 = [some 91, some 50, some 126] then some END_KEY
  else if rest.take 3 = [some 91, some 56, some 126] then some END_KEY
  else if rest.take 2 = [some 91, some 70] then some END_KEY
  else if rest.take 2 = [some 79, some 70] then some END_KEY
  else if rest.take 3 = [some 91, some 51, some 126] then some DEL_KEY
  else if rest.take 3 = [some 91, some 53, some 126] then some PAGE_UP
  else if rest.take 3 = [some 91, some 54, some 126] then some PAGE_DOWN
  else if rest.take 2 = [some 91, some 65] then some ARROW_UP
  else if rest.take 2 = [some 91, some 66] then some ARROW_DOWN
  else if rest.take 2 = [some 91, some 67] then some ARROW_RIGHT
  else if rest.take 2 = [some 91, some 68] then some ARROW_LEFT
  else none

/-- Bytes of a string literal, for the terminal escape sequences the render
pipeline emits. -/
def strBytes (s : String) : List Nat := s.toList.map Char.toNat

/-- snprintf of an int with %d: its decimal representation. -/
def intBytes (i : Int) : List Nat := strBytes i.repr

/-- The cursor-position escape sequence built by snprintf at kilo.c
lines 517-518. -/
def cursorPosSeq (r c : Int) : List Nat :=
  strBytes "\x1b[" ++ intBytes r ++ strBytes ";" ++ intBytes c ++ strBytes "H"

/-- The welcome banner text (kilo.c lines 448-449). -/
def welcomeMsg : List Nat := strBytes ("Kilo editor -- version " ++ "0.0.1")

/-- The bytes drawn for a screen line past the end of the buffer
(kilo.c lines 442-464): the centered, truncated welcome banner on the
one-third line of an empty buffer, a tilde otherwise. -/
def fillerLine (E : editorConfig) (y : Nat) : List Nat :=
  if E.numrows = 0 ∧ y = E.screenrows / 3 then
    let welcomelen := min welcomeMsg.length E.screencols
    let padding := (E.screencols - welcomelen) / 2
    (if padding ≠ 0 then 126 :: List.replicate (padding - 1) 32 else [])
      ++ welcomeMsg.take welcomelen
  else [126]

/-- One iteration of the editorDrawRows loop (kilo.c lines 437-486): the
line content, the clear-to-end-of-line sequence, and the line break on
every row but the last.  For a buffer row, `len = rsize - coloff` clamped
below at 0 (the Nat subtraction) and above at screencols, and the bytes
start at `&render[coloff]`. -/
def drawRow (E : editorConfig) (y : Nat) : List Nat :=
  let filerow := y + E.rowoff
  let content :=
    if E.numrows ≤ filerow then fillerLine E y
    else
      let r := E.row.getD filerow ⟨[], []⟩
      let len := min (r.rsize - E.coloff) E.screencols
      (r.render.drop E.coloff).take len
  content ++ strBytes "\x1b[K" ++ (if y < E.screenrows - 1 then strBytes "\r\n" else [])

/-- editorDrawRows (kilo.c lines 434-487): the append buffer after the for
loop over the screen rows. -/
def editorDrawRows (E : editorConfig) : List Nat :=
  (List.range E.screenrows).foldl (fun ab y => ab ++ drawRow E y) []

/-- editorRefreshScreen (kilo.c lines 489-529): scroll, then build the one
frame written to the terminal (hide cursor, home, rows, position cursor,
show cursor).  Returns the frame and the state as mutated by the scroll. -/
def editorRefreshScreen (E : editorConfig) : List Nat × editorConfig :=
  let E2 := editorScroll E
  (strBytes "\x1b[?25l" ++ strBytes "\x1b[H"
     ++ editorDrawRows E2
     ++ cursorPosSeq ((E2.cy : Int) - E2.rowoff + 1) ((E2.cx : Int) - E2.coloff + 1)
     ++ strBytes "\x1b[?25h",
   E2)

/-- Modelled from the spec (C3): the cursor's rendered (tab-expanded)
column, i.e. the rendered width of the first `cx` raw bytes of the row the
cursor is on (the code itself has no such notion; it compares `cx`
directly). -/
def renderedCol (E : editorConfig) : Nat :=
  (renderChars 0 (((E.row.getD E.cy ⟨[], []⟩).chars).take E.cx)).length

/-- Modelled from the claim (C5): strip exactly the terminating newline
plus at most one immediately preceding carriage return. -/
def stripOneNewline (l : List Nat) : List Nat :=
  match l.reverse with
  | 10 :: 13 :: t => t.reverse
  | 10 :: t => t.reverse
  | _ => l

/-- Modelled from the claim (C5): the rows bulk loading should produce. -/
def claimLoadRows (file : List Nat) : List (List Nat) :=
  (getlines file).map stripOneNewline

/-- Spec-side reformulation of the strip loop (C5 amended): remove all
trailing newline and carriage-return bytes. -/
def stripAllNewlines (l : List Nat) : List Nat :=
  (l.reverse.dropWhile (fun b => b == 10 || b == 13)).reverse

/-- A one-row buffer holding "abc", cursor at the origin, 24x80 screen. -/
def demoAbc : editorConfig :=
  { cx := 0, cy := 0, rowoff := 0, coloff := 0,
    screenrows := 24, screencols := 80, row := [editorUpdateRow [] [97, 98, 99]] }

/-- A one-row buffer holding "<tab>x", cursor after the tab, 24x4 screen. -/
def demoTab : editorConfig :=
  { cx := 1, cy := 0, rowoff := 0, coloff := 0,
    screenrows := 24, screencols := 4, row := [editorUpdateRow [] [9, 120]] }

/-- A one-row buffer holding the empty line, 4x10 screen. -/
def demoEmptyRow : editorConfig :=
  { cx := 0, cy := 0, rowoff := 0, coloff := 0,
    screenrows := 4, screencols := 10, row := [editorUpdateRow [] []] }

/-- A state used to witness the scroll invariant: cursor far from the
origin offsets. -/
def demoFar : editorConfig :=
  { cx := 100, cy := 50, rowoff := 0, coloff := 0,
    screenrows := 24, screencols := 80, row := [] }

/-! ### Helper lemmas -/

/-- The escape tail of editorReadKey produces exactly the key of the
claim's table, and the bare escape byte for every other sequence. -/
theorem readEscSeq_key (rest : List (Option Nat)) :
    (readEscSeq rest).1 = (claimEscKey rest).getD ESC_BYTE := by
  rcases rest with _ | ⟨_ | b0, rest0⟩
  · rfl
  · simp [readEscSeq, claimEscKey]
  · rcases rest0 with _ | ⟨_ | b1, rest1⟩
    · simp [readEscSeq, readSeq1, claimEscKey]
    · simp [readEscSeq, readSeq1, claimEscKey]
    · show (readSeqBody b0 b1 rest1).1 = _
      by_cases h0 : b0 = 91
      · subst h0
        by_cases hd : 48 ≤ b1 ∧ b1 ≤ 57
        · obtain ⟨h1, h2⟩ := hd
          have h72 : b1 ≠ 72 := by omega
          have h70 : b1 ≠ 70 := by omega
          have h65 : b1 ≠ 65 := by omega
          have h66 : b1 ≠ 66 := by omega
          have h67 : b1 ≠ 67 := by omega
          have h68 : b1 ≠ 68 := by omega
          rcases rest1 with _ | ⟨_ | b2, rest2⟩
          · simp [readSeqBody, readDigitTail, claimEscKey, h1, h2, h72, h70, h65, h66,
              h67, h68]
          · simp [readSeqBody, readDigitTail, claimEscKey, h1, h2, h72, h70, h65, h66,
              h67, h68]
          · by_cases h126 : b2 = 126
            · subst h126
              interval_cases b1 <;>
                simp [readSeqBody, readDigitTail, claimEscKey, escDigitKey]
            · simp [readSeqBody, readDigitTail, claimEscKey, h126,
                    h1, h2, h72, h70, h65, h66, h67, h68]
        · have hne : ∀ d, 48 ≤ d → d ≤ 57 → b1 ≠ d := by omega
          have h49 := hne 49 (by omega) (by omega)
          have h50 := hne 50 (by omega) (by omega)
          have h51 := hne 51 (by omega) (by omega)
          have h53 := hne 53 (by omega) (by omega)
          have h54 := hne 54 (by omega) (by omega)
          have h55 := hne 55 (by omega) (by omega)
          have h56 := hne 56 (by omega) (by omega)
          by_cases e72 : b1 = 72
          · subst e72; simp [readSeqBody, escLetterKey, claimEscKey]
          · by_cases e70 : b1 = 70
            · subst e70; simp [readSeqBody, escLetterKey, claimEscKey]
            · by_cases e65 : b1 = 65
              · subst e65; simp [readSeqBody, escLetterKey, claimEscKey]
              · by_cases e66 : b1 = 66
                · subst e66; simp [readSeqBody, escLetterKey, claimEscKey]
                · by_cases e67 : b1 = 67
                  · subst e67; simp [readSeqBody, escLetterKey, claimEscKey]
                  · by_cases e68 : b1 = 68
                    · subst e68; simp [readSeqBody, escLetterKey, claimEscKey]
                    · simp [readSeqBody, escLetterKey, claimEscKey, hd,
                            h49, h50, h51, h53, h54, h55, h56,
                            e72, e70, e65, e66, e67, e68]
      · by_cases h79 : b0 = 79
        · subst h79
          by_cases e72 : b1 = 72
          · subst e72; simp [readSeqBody, escOKey, claimEscKey]
          · by_cases e70 : b1 = 70
            · subst e70; simp [readSeqBody, escOKey, claimEscKey]
            · simp [readSeqBody, escOKey, claimEscKey, e72, e70]
        · simp [readSeqBody, claimEscKey, h0, h79]

/-- Unfolding of the switch at the ARROW_UP key. -/
theorem moveSwitch_up (E : editorConfig) :
    moveSwitch ARROW_UP E = if E.cy ≠ 0 then { E with cy := E.cy - 1 } else E := rfl

/-- Unfolding of the switch at the ARROW_DOWN key. -/
theorem moveSwitch_down (E : editorConfig) :
    moveSwitch ARROW_DOWN E =
      if E.cy < E.numrows then { E with cy := E.cy + 1 } else E := rfl

/-- Unfolding of the switch at the ARROW_RIGHT key. -/
theorem moveSwitch_right (E : editorConfig) :
    moveSwitch ARROW_RIGHT E =
      match rowObj E E.cy with
      | none => E
      | some r =>
        if E.cx < r.size then { E with cx := E.cx + 1 }
        else if E.cx = r.size then { E with cy := E.cy + 1, cx := 0 }
        else E := rfl

/-- The snap step never changes the vertical position. -/
theorem snapCx_cy (E : editorConfig) : (snapCx E).cy = E.cy := by
  simp only [snapCx]
  split <;> rfl

/-- Concatenating getline's chunks gives back the file. -/
theorem getlinesAux_join : ∀ (l acc : List Nat),
    (getlinesAux acc l).join = acc.reverse ++ l := by
  intro l
  induction l with
  | nil =>
    intro acc
    simp only [getlinesAux]
    split <;> simp_all
  | cons b rest ih =>
    intro acc
    simp only [getlinesAux]
    split
    · rename_i hb
      subst hb
      simp [ih]
    · simp [ih]

/-- The strip loop only ever shortens the line. -/
theorem stripLen_le (line : List Nat) : ∀ n, stripLen line n ≤ n := by
  intro n
  induction n with
  | zero => simp [stripLen]
  | succ n ih =>
    simp only [stripLen]
    split
    · omega
    · omega

/-- Below the appended last byte, the strip loop ignores that byte. -/
theorem stripLen_append (ys : List Nat) (b : Nat) :
    ∀ k, k ≤ ys.length → stripLen (ys ++ [b]) k = stripLen ys k := by
  intro k
  induction k with
  | zero => intro _; rfl
  | succ k ih =>
    intro hk
    have hlt : k < ys.length := hk
    have hg : (ys ++ [b]).get? k = ys.get? k := List.get?_append hlt
    simp only [stripLen, hg]
    split
    · exact ih (Nat.le_of_lt hlt)
    · rfl

/-- The strip loop of editorOpen removes exactly all trailing newline and
carriage-return bytes. -/
theorem stripTrailing_eq (l : List Nat) : stripTrailing l = stripAllNewlines l := by
  induction l using List.reverseRecOn with
  | nil => rfl
  | append_singleton ys b ih =>
    have hg : (ys ++ [b]).get? ys.length = some b := List.get?_concat_length ys b
    by_cases hb : b = 10 ∨ b = 13
    · have hcond : (ys ++ [b]).get? ys.length = some 10 ∨
          (ys ++ [b]).get? ys.length = some 13 := by
        rcases hb with h | h <;> simp [hg, h]
      have hpb : (b == 10 || b == 13) = true := by
        rcases hb with h | h <;> simp [h]
      unfold stripTrailing
      have hlen : (ys ++ [b]).length = ys.length + 1 := by simp
      rw [hlen]
      simp only [stripLen, if_pos hcond]
      rw [stripLen_append ys b ys.length le_rfl,
          List.take_append_of_le_length (stripLen_le ys ys.length)]
      rw [show ys.take (stripLen ys ys.length) = stripTrailing ys from rfl, ih]
      unfold stripAllNewlines
      rw [List.reverse_append]
      simp only [List.reverse_singleton, List.singleton_append, List.dropWhile_cons, hpb,
        if_true]
    · have hcond : ¬ ((ys ++ [b]).get? ys.length = some 10 ∨
          (ys ++ [b]).get? ys.length = some 13) := by
        rw [hg]
        rintro (h | h) <;> simp_all
      have hpb : (b == 10 || b == 13) = false := by
        push_neg at hb
        simp [hb.1, hb.2]
      unfold stripTrailing
      have hlen : (ys ++ [b]).length = ys.length + 1 := by simp
      rw [hlen]
      simp only [stripLen, if_neg hcond]
      rw [show ys.length + 1 = (ys ++ [b]).length by simp, List.take_length]
      unfold stripAllNewlines
      rw [List.reverse_append]
      simp only [List.reverse_singleton, List.singleton_append, List.dropWhile_cons, hpb,
        if_false]
      simp

/-- The load loop appends one stripped row per getline chunk. -/
theorem editorOpen_foldl (junk : List Nat) : ∀ (ls : List (List Nat)) (E : editorConfig),
    ((ls.foldl (fun E line => editorAppendRow junk E (stripTrailing line)) E).row.map
        erow.chars)
      = E.row.map erow.chars ++ ls.map stripAllNewlines := by
  intro ls
  induction ls with
  | nil => intro E; simp
  | cons l ls ih =>
    intro E
    simp only [List.foldl_cons, ih, List.map_cons]
    simp [editorAppendRow, editorUpdateRow, stripTrailing_eq]

/-- Each byte of the raw row contributes at most KILO_TAB_STOP rendered
bytes when it is a tab and exactly one otherwise, for any start index. -/
theorem renderChars_length_le : ∀ (cs : List Nat) (idx : Nat),
    (renderChars idx cs).length ≤ cs.length + cs.count 9 * (KILO_TAB_STOP - 1) := by
  intro cs
  induction cs with
  | nil => intro idx; simp [renderChars]
  | cons c rest ih =>
    intro idx
    by_cases hc : c = 9
    · subst hc
      rw [show renderChars idx (9 :: rest)
            = (32 :: List.replicate
                ((KILO_TAB_STOP - (idx + 1) % KILO_TAB_STOP) % KILO_TAB_STOP) 32)
              ++ renderChars
                  (idx + 1 + (KILO_TAB_STOP - (idx + 1) % KILO_TAB_STOP) % KILO_TAB_STOP)
                  rest
          from rfl]
      have hrec := ih (idx + 1 + (KILO_TAB_STOP - (idx + 1) % KILO_TAB_STOP) % KILO_TAB_STOP)
      rw [List.count_cons_self]
      simp only [List.length_append, List.length_cons, List.length_replicate]
      simp only [KILO_TAB_STOP] at hrec ⊢
      omega
    · rw [show renderChars idx (c :: rest) = c :: renderChars (idx + 1) rest by
            simp [renderChars, hc]]
      have hrec := ih (idx + 1)
      rw [List.count_cons_of_ne (Ne.symm hc)]
      simp only [List.length_cons]
      omega

/-- A left fold of appends over a range is the concatenation of the mapped
pieces. -/
theorem foldl_append_eq_join {α β : Type} (f : β → List α) :
    ∀ (l : List β) (init : List α),
      l.foldl (fun ab y => ab ++ f y) init = init ++ (l.map f).join := by
  intro l
  induction l with
  | nil => intro init; simp
  | cons y l ih => intro init; simp [ih]

/-- Taking up to the list's own length is taking everything. -/
theorem take_min (l : List Nat) (k : Nat) : l.take (min l.length k) = l.take k := by
  rcases Nat.le_total l.length k with h | h
  · rw [min_eq_left h, List.take_length, List.take_of_length_le h]
  · rw [min_eq_right h]

/-- The clamped length arithmetic of editorDrawRows is a plain drop/take
slice of the rendered row. -/
theorem drawRow_slice (E : editorConfig) (y : Nat) (h : y + E.rowoff < E.numrows) :
    drawRow E y = ((E.row.getD (y + E.rowoff) ⟨[], []⟩).render.drop E.coloff).take E.screencols
      ++ strBytes "\x1b[K" ++ (if y < E.screenrows - 1 then strBytes "\r\n" else []) := by
  simp only [drawRow]
  rw [if_neg (Nat.not_le.mpr h)]
  have hlen : ((E.row.getD (y + E.rowoff) ⟨[], []⟩).render.drop E.coloff).length
      = (E.row.getD (y + E.rowoff) ⟨[], []⟩).rsize - E.coloff := by
    simp [erow.rsize]
  rw [show min ((E.row.getD (y + E.rowoff) ⟨[], []⟩).rsize - E.coloff) E.screencols
        = min ((E.row.getD (y + E.rowoff) ⟨[], []⟩).render.drop E.coloff).length E.screencols
      by rw [hlen], take_min]

/-! ### Claim theorems -/

/-- Claim C1 (code bug): the spec says End moves the cursor to end-of-line,
and after loading ["abc", "<tab>x", ""] and pressing Down, Down, End the
cursor should be at (2, 0); the code instead sets `cx = screencols - 1`,
so on an 80-column screen the scenario ends at (2, 79) although the row the
cursor is on has length 0. -/
theorem end_key_scenario :
    (([ARROW_DOWN, ARROW_DOWN, END_KEY].foldl applyKey
        (editorOpen [] (initEditor 24 80) (strBytes "abc\n\tx\n\n"))).cy = 2) ∧
    (([ARROW_DOWN, ARROW_DOWN, END_KEY].foldl applyKey
        (editorOpen [] (initEditor 24 80) (strBytes "abc\n\tx\n\n"))).cx = 79) ∧
    rowLenAt ([ARROW_DOWN, ARROW_DOWN, END_KEY].foldl applyKey
        (editorOpen [] (initEditor 24 80) (strBytes "abc\n\tx\n\n"))) 2 = 0 := by
  decide

/-- Claim C2 (code bug): processing a key event should preserve the cursor
invariant `cx ≤ row length`, but the End key sets `cx = screencols - 1 = 79`
on the row "abc" of length 3, breaking the invariant on a state that
satisfies it. -/
theorem end_key_breaks_invariant :
    cursorInv demoAbc ∧
    editorProcessKeypress END_KEY demoAbc = KeyResult.cont { demoAbc with cx := 79 } ∧
    ¬ cursorInv { demoAbc with cx := 79 } := by
  decide

/-- Claim C3 counterexample: after one editorScroll call on a row "<tab>x"
with cx = 1 and a 4-column screen, the cursor's rendered column is 8 but
the column offset stays 0, so the claimed rendered-column invariant
`coloff ≤ renderedCol < coloff + screencols` is false: the code compares
the raw column, not the rendered one. -/
theorem editorScroll_rendered_counterexample :
    ¬ ((editorScroll demoTab).coloff ≤ renderedCol (editorScroll demoTab) ∧
       renderedCol (editorScroll demoTab) <
         (editorScroll demoTab).coloff + (editorScroll demoTab).screencols) := by
  decide

/-- Claim C3 (amended): after one editorScroll call the window invariants
hold for the raw cursor column `cx` (which is what the code compares), for
any positive screen size; and offsets already 0 stay 0 whenever the cursor
fits on the screen. -/
theorem editorScroll_invariant (s : editorConfig)
    (hr : 1 ≤ s.screenrows) (hc : 1 ≤ s.screencols) :
    ((editorScroll s).rowoff ≤ s.cy ∧ s.cy < (editorScroll s).rowoff + s.screenrows) ∧
    ((editorScroll s).coloff ≤ s.cx ∧ s.cx < (editorScroll s).coloff + s.screencols) ∧
    (s.rowoff = 0 → s.cy < s.screenrows → (editorScroll s).rowoff = 0) ∧
    (s.coloff = 0 → s.cx < s.screencols → (editorScroll s).coloff = 0) := by
  cases s with
  | mk cx cy rowoff coloff screenrows screencols row =>
    simp only [editorScroll] at *
    split_ifs <;> simp_all <;> omega

/-- Witness for the amended scroll invariant at a concrete state. -/
theorem editorScroll_invariant_witness :
    ((editorScroll demoFar).rowoff ≤ demoFar.cy ∧
     demoFar.cy < (editorScroll demoFar).rowoff + demoFar.screenrows) ∧
    ((editorScroll demoFar).coloff ≤ demoFar.cx ∧
     demoFar.cx < (editorScroll demoFar).coloff + demoFar.screencols) ∧
    (demoFar.rowoff = 0 → demoFar.cy < demoFar.screenrows →
      (editorScroll demoFar).rowoff = 0) ∧
    (demoFar.coloff = 0 → demoFar.cx < demoFar.screencols →
      (editorScroll demoFar).coloff = 0) :=
  editorScroll_invariant demoFar (by decide) (by decide)

/-- Claim C4 counterexample: on the single row "abc" with the cursor at its
end (0, 3), no next line exists, yet Arrow-Right changes the column and
advances the cursor to (1, 0) — the claim's "otherwise fileCol is
unchanged" is false. -/
theorem arrow_right_eol_counterexample :
    (let s := { demoAbc with cx := 3 };
     s.cx = rowLenAt s s.cy ∧ ¬ (s.cy + 1 < s.numrows) ∧
     (editorMoveCursor ARROW_RIGHT s).cx ≠ s.cx ∧
     (editorMoveCursor ARROW_RIGHT s).cy = s.cy + 1) := by
  decide

/-- Claim C4 (amended): on an invariant-satisfying state, Up from row 0
stays at row 0, Down never exceeds the row count, Right at end-of-line
advances to `(cy + 1, 0)` whenever the cursor is on an existing row — also
from the last row, reaching the end-of-file position — and Right leaves the
state unchanged only when the cursor already sits at the end-of-file
position `cy = numrows`. -/
theorem editorMoveCursor_clamps (s : editorConfig) (hinv : cursorInv s) :
    (s.cy = 0 → (editorMoveCursor ARROW_UP s).cy = 0) ∧
    (editorMoveCursor ARROW_DOWN s).cy ≤ s.numrows ∧
    (s.cy < s.numrows → s.cx = rowLenAt s s.cy →
      editorMoveCursor ARROW_RIGHT s = { s with cy := s.cy + 1, cx := 0 }) ∧
    (s.cy = s.numrows → editorMoveCursor ARROW_RIGHT s = s) := by
  obtain ⟨hcy, hcx⟩ := hinv
  refine ⟨?_, ?_, ?_, ?_⟩
  · intro h0
    rw [editorMoveCursor, snapCx_cy, moveSwitch_up, if_neg (by simp [h0])]
    exact h0
  · rw [editorMoveCursor, snapCx_cy, moveSwitch_down]
    split <;> (try simp) <;> omega
  · intro hlt heq
    have hcy2 : s.cy < s.row.length := hlt
    have hget : s.row.get? s.cy = some (s.row.get ⟨s.cy, hcy2⟩) := List.get?_eq_get hcy2
    have hget2 : s.row[s.cy]? = some (s.row.get ⟨s.cy, hcy2⟩) := by
      rw [← List.get?_eq_getElem?]; exact hget
    have hro : rowObj s s.cy = some (s.row.get ⟨s.cy, hcy2⟩) := by
      simp [rowObj, editorConfig.numrows, Nat.not_le.mpr hcy2, hget]
    have hlen : rowLenAt s s.cy = (s.row.get ⟨s.cy, hcy2⟩).size := by
      simp [rowLenAt, editorConfig.numrows, Nat.not_le.mpr hcy2,
            List.getD_eq_getElem?_getD, hget2]
    rw [hlen] at heq
    have hsw : moveSwitch ARROW_RIGHT s = { s with cy := s.cy + 1, cx := 0 } := by
      rw [moveSwitch_right, hro]
      simp [heq]
    rw [editorMoveCursor, hsw, snapCx, rowLenAt]
    simp
  · intro he
    have hro : rowObj s s.cy = none := by
      simp [rowObj, he.ge]
    have hr0 : rowLenAt s s.cy = 0 := by
      simp [rowLenAt, he.ge]
    have hcx0 : s.cx = 0 := by omega
    have hsw : moveSwitch ARROW_RIGHT s = s := by
      rw [moveSwitch_right, hro]
    rw [editorMoveCursor, hsw, snapCx]
    simp only [hr0]
    rw [if_neg (by omega)]

/-- Witness for the amended cursor-movement clamps at concrete states. -/
theorem editorMoveCursor_clamps_witness :
    editorMoveCursor ARROW_RIGHT { demoAbc with cx := 3 } = { demoAbc with cy := 1, cx := 0 } ∧
    (editorMoveCursor ARROW_DOWN demoAbc).cy ≤ demoAbc.numrows := by
  refine ⟨?_, (editorMoveCursor_clamps demoAbc (by decide)).2.1⟩
  exact (editorMoveCursor_clamps { demoAbc with cx := 3 } (by decide)).2.2.1
    (by decide) (by decide)

/-- Claim C5 counterexample: for the file bytes "a\r\r\n" the claim
prescribes the single row "a\r" (strip one newline plus at most one
preceding carriage return), but editorOpen stores "a": the strip loop
removes every trailing carriage-return byte. -/
theorem editorOpen_strip_counterexample :
    (editorOpen [] (initEditor 24 80) [97, 13, 13, 10]).row.map erow.chars = [[97]] ∧
    claimLoadRows [97, 13, 13, 10] = [[97, 13]] ∧
    (editorOpen [] (initEditor 24 80) [97, 13, 13, 10]).row.map erow.chars
      ≠ claimLoadRows [97, 13, 13, 10] := by
  decide

/-- Claim C5 (amended): bulk loading splits the file at newline terminators
(the chunks concatenate back to the file) and stores each line with all
trailing newline and carriage-return bytes removed, every other byte kept
unchanged as the row's raw content. -/
theorem editorOpen_rows (E : editorConfig) (junk file : List Nat) :
    (editorOpen junk E file).row.map erow.chars
      = E.row.map erow.chars ++ (getlines file).map stripAllNewlines ∧
    (getlines file).join = file := by
  constructor
  · exact editorOpen_foldl junk (getlines file) E
  · simpa using getlinesAux_join file []

/-- Claim C6 (code bug): editorUpdateRow reads its local `idx` without
initializing it.  If the stack value is 5, the tab-free row "abc" gets
`rsize = 8` and a render different from its raw contents, and the
terminating null byte lands at index 8 of a 4-byte allocation; only with
the intended start value 0 does the rendered form equal the tab expansion
of the raw content. -/
theorem editorUpdateRow_uninitialized_idx :
    (editorUpdateRow (List.replicate 5 0) [97, 98, 99]).rsize = 8 ∧
    renderAlloc [97, 98, 99] = 4 ∧
    (editorUpdateRow (List.replicate 5 0) [97, 98, 99]).render ≠ [97, 98, 99] ∧
    (editorUpdateRow [] [97, 98, 99]).render = [97, 98, 99] ∧
    (editorUpdateRow [] [97, 98, 99]).rsize = 3 := by
  decide

/-- Claim C7: one editorReadKey call returns the byte itself for any first
byte other than escape, and for an escape-initiated stream it returns the
named key of the claim's table (Home for `[1~`, `[7~`, `[H`, `OH`; End for
`[2~`, `[8~`, `[F`, `OF`; Delete for `[3~`; PageUp/PageDown for `[5~`/`[6~`;
the arrows for `[A`..`[D`) and the bare escape byte for every other
sequence, timeouts mid-sequence included. -/
theorem editorReadKey_decodes :
    (∀ b rest, b ≠ ESC_BYTE → editorReadKey (some b :: rest) = some (b, rest)) ∧
    (∀ rest, (editorReadKey (some ESC_BYTE :: rest)).map Prod.fst
        = some ((claimEscKey rest).getD ESC_BYTE)) := by
  constructor
  · intro b rest h
    simp [editorReadKey, h]
  · intro rest
    simp [editorReadKey, readEscSeq_key rest]

/-- Witness for the key decoder: a literal byte and the Up-arrow
sequence. -/
theorem editorReadKey_decodes_witness :
    editorReadKey [some 113] = some (113, []) ∧
    (editorReadKey [some ESC_BYTE, some 91, some 65]).map Prod.fst = some ARROW_UP := by
  constructor
  · exact editorReadKey_decodes.1 113 [] (by decide)
  · have h := editorReadKey_decodes.2 [some 91, some 65]
    have e : (claimEscKey [some 91, some 65]).getD ESC_BYTE = ARROW_UP := by decide
    rw [e] at h
    exact h

/-- Claim C8: the frame emitted by one refresh is exactly hide-cursor,
home, then for each visible line the buffer row's rendered slice starting
at coloff hard-truncated to screencols bytes (the filler line for rows past
the buffer) followed by clear-to-end-of-line and a line break on all but
the last row, and it ends by positioning the cursor at the 1-based
coordinates (cy - rowoff + 1, cx - coloff + 1) before re-showing it; a
slice whose row is shorter than coloff is empty. -/
theorem editorRefreshScreen_frame (s : editorConfig) :
    (editorRefreshScreen s).1 =
      strBytes "\x1b[?25l" ++ strBytes "\x1b[H"
      ++ ((List.range (editorScroll s).screenrows).map (fun y =>
            (if y + (editorScroll s).rowoff < (editorScroll s).numrows then
               (((editorScroll s).row.getD (y + (editorScroll s).rowoff) ⟨[], []⟩).render.drop
                   (editorScroll s).coloff).take (editorScroll s).screencols
             else fillerLine (editorScroll s) y)
            ++ strBytes "\x1b[K"
            ++ (if y < (editorScroll s).screenrows - 1 then strBytes "\r\n" else []))).join
      ++ cursorPosSeq (((editorScroll s).cy : Int) - (editorScroll s).rowoff + 1)
          (((editorScroll s).cx : Int) - (editorScroll s).coloff + 1)
      ++ strBytes "\x1b[?25h" ∧
    (∀ y, ((editorScroll s).row.getD (y + (editorScroll s).rowoff) ⟨[], []⟩).rsize
            ≤ (editorScroll s).coloff →
       (((editorScroll s).row.getD (y + (editorScroll s).rowoff) ⟨[], []⟩).render.drop
           (editorScroll s).coloff).take (editorScroll s).screencols = []) := by
  constructor
  · simp only [editorRefreshScreen, editorDrawRows, foldl_append_eq_join, List.nil_append]
    congr 1
    congr 1
    congr 1
    congr 1
    apply List.map_congr_left
    intro y _
    by_cases h : y + (editorScroll s).rowoff < (editorScroll s).numrows
    · rw [drawRow_slice _ _ h, if_pos h]
    · simp only [drawRow]
      rw [if_pos (Nat.not_lt.mp h), if_neg h]
  · intro y h
    have hd : ((editorScroll s).row.getD (y + (editorScroll s).rowoff) ⟨[], []⟩).render.drop
        (editorScroll s).coloff = [] := by
      apply List.drop_eq_nil_of_le
      simpa [erow.rsize] using h
    rw [hd, List.take_nil]

/-- Witness for the refresh frame: the empty-slice clause at a one-row
buffer whose render is empty. -/
theorem editorRefreshScreen_frame_witness :
    (((editorScroll demoEmptyRow).row.getD (0 + (editorScroll demoEmptyRow).rowoff)
        ⟨[], []⟩).render.drop (editorScroll demoEmptyRow).coloff).take
      (editorScroll demoEmptyRow).screencols = [] :=
  (editorRefreshScreen_frame demoEmptyRow).2 0 (by decide)

/-- Claim C9: editorScroll is idempotent — a second call on its own output
changes nothing — and it modifies only the two offsets, leaving the cursor,
the screen size and the rows untouched. -/
theorem editorScroll_idempotent (s : editorConfig) :
    editorScroll (editorScroll s) = editorScroll s ∧
    (editorScroll s).cx = s.cx ∧ (editorScroll s).cy = s.cy ∧
    (editorScroll s).screenrows = s.screenrows ∧
    (editorScroll s).screencols = s.screencols ∧
    (editorScroll s).row = s.row := by
  cases s with
  | mk cx cy rowoff coloff screenrows screencols row =>
    simp only [editorScroll, editorConfig.mk.injEq]
    split_ifs <;> simp_all <;> omega

/-- Claim C10: with the intended start index 0, editorUpdateRow writes at
most `size + tabs * (KILO_TAB_STOP - 1)` content bytes plus one null byte,
so every write fits the `size + tabs * (KILO_TAB_STOP - 1) + 1` bytes the
code allocates, and the stored rsize never exceeds that content bound. -/
theorem editorUpdateRow_bounds (chars : List Nat) :
    (editorUpdateRow [] chars).rsize + 1 ≤ renderAlloc chars ∧
    (editorUpdateRow [] chars).rsize ≤ chars.length + tabsIn chars * (KILO_TAB_STOP - 1) := by
  have h := renderChars_length_le chars 0
  constructor <;>
    simp only [editorUpdateRow, erow.rsize, renderAlloc, tabsIn, List.nil_append,
      List.length_nil] <;>
    omega

end Kilo
